import Mathlib

/-!
Verification of the memoizing pipeline engine (`memori`): a shallow embedding
of `stage.py`, `pipeline.py` and `pathman.py` together with theorems settling
the specification claims about caching, canonicalisation, stage execution,
pipeline routing and path manipulation.
-/

namespace Memori

/-- Python values flowing through stage input/output dictionaries: JSON
scalars, lists, tuples and string-keyed dicts (insertion-ordered association
lists, as in CPython). -/
inductive PyVal where
  | none
  | bool (b : Bool)
  | int (n : Int)
  | str (s : String)
  | list (xs : List PyVal)
  | tuple (xs : List PyVal)
  | dict (entries : List (String × PyVal))

/-- A Python dict with string keys, modelled as an insertion-ordered
association list with at most one binding per key (maintained by `insertD`). -/
abbrev Dict := List (String × PyVal)

/-- First-match association lookup, i.e. `d[k]` on a well-formed dict. -/
def dlookup (d : Dict) (k : String) : Option PyVal :=
  match d with
  | [] => Option.none
  | (k', v) :: rest => if k' = k then some v else dlookup rest k

/-- `k in d` for a Python dict. -/
def containsKey (d : Dict) (k : String) : Bool :=
  (dlookup d k).isSome

/-- `d[k] = v`: replace the binding in place if the key exists, else append
(CPython dict assignment preserves insertion order). -/
def insertD (d : Dict) (k : String) (v : PyVal) : Dict :=
  match d with
  | [] => [(k, v)]
  | (k', v') :: rest => if k' = k then (k, v) :: rest else (k', v') :: insertD rest k v

/-- `d.update(u)`: assign every binding of `u` into `d`, in order. -/
def dictUpdate (d : Dict) (u : Dict) : Dict :=
  u.foldl (fun acc p => insertD acc p.1 p.2) d

/-- `Option` fallback: the first operand when present, else the second. -/
def oOr (a b : Option PyVal) : Option PyVal :=
  match a with
  | some v => some v
  | Option.none => b

/-- First defined entry of a list of options. -/
def firstSome (l : List (Option PyVal)) : Option PyVal :=
  match l with
  | [] => Option.none
  | a :: rest => oOr a (firstSome rest)

/-- The filesystem of regular data files: path ↦ byte content.  `os.path.isfile`
is membership; reading a file returns its content. -/
abbrev FS := List (String × String)

/-- `os.path.isfile(p)` on the modelled filesystem. -/
def isfile (fs : FS) (p : String) : Bool :=
  (fs.lookup p).isSome

/-- Content of an existing file (empty for a missing one; only ever read after
an `isfile` check, mirroring `Stage._hash_file`). -/
def fileContent (fs : FS) (p : String) : String :=
  (fs.lookup p).getD ""

/-- `Stage._hash_file`: the SHA-256 hex digest of the file's bytes.  The digest
is modelled as an injective function of the content (the identity); every claim
verified here depends only on the digest being a function of the bytes. -/
def sha256hex (data : String) : String := data

/-- The file-record `{"file": path, "hash": digest}` substituted for a bare
path string by `Stage._hash_files_in_dict`. -/
def fileRecord (fs : FS) (p : String) : PyVal :=
  PyVal.dict [("file", PyVal.str p), ("hash", PyVal.str (sha256hex (fileContent fs p)))]

mutual

/-- Python `==` on modelled values; dict comparison is length plus key-wise
value equality, independent of insertion order (as in CPython). -/
def pyEq : PyVal → PyVal → Bool
  | PyVal.none, PyVal.none => true
  | PyVal.bool a, PyVal.bool b => a == b
  | PyVal.int a, PyVal.int b => a == b
  | PyVal.str a, PyVal.str b => a == b
  | PyVal.list a, PyVal.list b => pyEqL a b
  | PyVal.tuple a, PyVal.tuple b => pyEqL a b
  | PyVal.dict a, PyVal.dict b => (a.length == b.length) && pyEqD a b
  | _, _ => false

/-- Pointwise `==` on sequences. -/
def pyEqL : List PyVal → List PyVal → Bool
  | [], [] => true
  | x :: xs, y :: ys => pyEq x y && pyEqL xs ys
  | _, _ => false

/-- Each binding of the first dict is present with an equal value in the
second. -/
def pyEqD : List (String × PyVal) → List (String × PyVal) → Bool
  | [], _ => true
  | (k, v) :: rest, b =>
    (match dlookup b k with
     | some w => pyEq v w
     | Option.none => false) && pyEqD rest b

end

mutual

/-- `Stage._hash_files_in_dict`: canonicalisation.  Walks the dict's values;
a string naming an existing file becomes a file-record, a sub-dict is walked
recursively, a list has its elements processed by `hashListElem`.  All other
values (tuples included) pass through untouched. -/
def hashDict (fs : FS) : List (String × PyVal) → List (String × PyVal)
  | [] => []
  | (k, v) :: rest => (k, hashDictVal fs v) :: hashDict fs rest

/-- One dict value under `Stage._hash_files_in_dict`. -/
def hashDictVal (fs : FS) : PyVal → PyVal
  | PyVal.str s => if isfile fs s then fileRecord fs s else PyVal.str s
  | PyVal.dict d => PyVal.dict (hashDict fs d)
  | PyVal.list xs => PyVal.list (hashList fs xs)
  | v => v

/-- Elements of a list value, processed positionally. -/
def hashList (fs : FS) : List PyVal → List PyVal
  | [] => []
  | v :: rest => hashListElem fs v :: hashList fs rest

/-- One list element under `Stage._hash_files_in_dict`: only a string that is
an existing file or a sub-dict is transformed; nested lists and tuples are
left as they are. -/
def hashListElem (fs : FS) : PyVal → PyVal
  | PyVal.str s => if isfile fs s then fileRecord fs s else PyVal.str s
  | PyVal.dict d => PyVal.dict (hashDict fs d)
  | v => v

end

/-- The `xtype` argument of `Stage._unhash_files_in_dict`: which field of a
file-record the projection keeps. -/
inductive XType where
  | file
  | hash
deriving DecidableEq, Repr

/-- Whether a dict carries both the `"file"` and `"hash"` keys, i.e. is
recognised as a file-record by `Stage._unhash_files_in_dict`. -/
def hasFileHash (d : List (String × PyVal)) : Bool :=
  containsKey d "file" && containsKey d "hash"

/-- Field extraction from a recognised file-record. -/
def recordField (x : XType) (d : List (String × PyVal)) : PyVal :=
  match x with
  | XType.file => (dlookup d "file").getD PyVal.none
  | XType.hash => (dlookup d "hash").getD PyVal.none

mutual

/-- `Stage._unhash_files_in_dict`: the projection inverse of canonicalisation.
Walks the dict's values; a sub-dict carrying both `"file"` and `"hash"` keys
is replaced by the requested field, any other sub-dict is walked recursively,
and list elements are processed by `unhashListElem`. -/
def unhashDict (x : XType) : List (String × PyVal) → List (String × PyVal)
  | [] => []
  | (k, v) :: rest => (k, unhashDictVal x v) :: unhashDict x rest

/-- One dict value under `Stage._unhash_files_in_dict`. -/
def unhashDictVal (x : XType) : PyVal → PyVal
  | PyVal.dict d => if hasFileHash d then recordField x d else PyVal.dict (unhashDict x d)
  | PyVal.list xs => PyVal.list (unhashList x xs)
  | v => v

/-- Elements of a list value, processed positionally. -/
def unhashList (x : XType) : List PyVal → List PyVal
  | [] => []
  | v :: rest => unhashListElem x v :: unhashList x rest

/-- One list element: only a dict element is transformed (via the `{"v": v}`
wrapper in the source, which is equivalent to processing it as a dict value);
everything else, nested lists included, is left as it is. -/
def unhashListElem (x : XType) : PyVal → PyVal
  | PyVal.dict d => unhashDictVal x (PyVal.dict d)
  | v => v

end

/-- Insert an entry into a key-sorted association list (helper for the
`sort_keys=True` of `json.dump`). -/
def insSorted (kv : String × PyVal) : List (String × PyVal) → List (String × PyVal)
  | [] => [kv]
  | x :: xs => if kv.1 ≤ x.1 then kv :: x :: xs else x :: insSorted kv xs

/-- Sort a dict's entries by key (insertion sort). -/
def sortByKey (d : List (String × PyVal)) : List (String × PyVal) :=
  d.foldr insSorted []

mutual

/-- The value that `json.load` recovers after `json.dump(v, sort_keys=True)`:
tuples collapse to lists and dict keys are sorted; scalars and strings are
unchanged. -/
def toJson : PyVal → PyVal
  | PyVal.list xs => PyVal.list (toJsonL xs)
  | PyVal.tuple xs => PyVal.list (toJsonL xs)
  | PyVal.dict d => PyVal.dict (sortByKey (toJsonD d))
  | v => v

/-- JSON round trip of a list of values. -/
def toJsonL : List PyVal → List PyVal
  | [] => []
  | v :: rest => toJson v :: toJsonL rest

/-- JSON round trip of a dict's entries (before key sorting). -/
def toJsonD : List (String × PyVal) → List (String × PyVal)
  | [] => []
  | (k, v) :: rest => (k, toJson v) :: toJsonD rest

end

/-- JSON round trip at the top level of a cache file, which is always a JSON
object. -/
def toJsonDict (d : Dict) : Dict :=
  sortByKey (toJsonD d)

/-- Content of one persisted cache file: either well-formed JSON holding an
object, or bytes that `json.load` rejects with a `JSONDecodeError`. -/
inductive CacheData where
  | json (d : Dict)
  | corrupt

/-- The three cache files of one stage (`<name>.stage`, `<name>.inputs`,
`<name>.outputs` under the stage's `hash_output` directory); `none` models a
file that does not exist. -/
structure CacheFS where
  stageFile : Option String
  inputsFile : Option CacheData
  outputsFile : Option CacheData

/-- Python exceptions that the modelled code can raise. -/
inductive Err where
  | attributeError
  | jsonDecodeError
  | fileNotFoundError
  | keyError
deriving DecidableEq, Repr

/-- The `Stage` object: the wrapped callable (as a function from the effective
input dict to its return value), the byte string produced by
`_get_function_byte_code` for it, and the attributes set by `Stage.__init__`.
`hash_output = none` models a stage constructed without a cache directory, for
which the `*_hash_location` attributes are never defined. -/
structure Stage where
  function_to_call : Dict → PyVal
  funcBytes : String
  stage_inputs : List String
  stage_outputs : List String
  stage_args : Dict := []
  stage_input_args : Dict := []
  stage_results : Dict := []
  stage_aliases : List (String × String) := []
  hash_output : Option String := Option.none
  stage_from_hash : Bool := false
  stage_has_run : Bool := false

/-- Body of the `Stage.results` property: copy `stage_results`, then add one
entry per alias, reading the target key from the evolving copy (a missing
target raises `KeyError`). -/
def Stage.resultsProp (st : Stage) : Except Err Dict :=
  st.stage_aliases.foldlM
    (fun r p =>
      match dlookup r p.2 with
      | some v => Except.ok (insertD r p.1 v)
      | Option.none => Except.error Err.keyError)
    st.stage_results

/-- The `Stage.results` property as a state-passing read: it returns the
aliased copy together with the stage, whose attributes it never assigns. -/
def Stage.resultsRead (st : Stage) : Except Err (Dict × Stage) :=
  match st.resultsProp with
  | Except.ok r => Except.ok (r, st)
  | Except.error e => Except.error e

/-- The effective input dict assembled at the top of `Stage.run`: the persisted
`stage_input_args` updated with the positional arguments bound to the declared
parameter names in order, then the call's keyword arguments, then the pinned
constructor values (`stage_args`). -/
def effInputs (st : Stage) (args : List PyVal) (kwargs : Dict) : Dict :=
  dictUpdate (dictUpdate (dictUpdate st.stage_input_args (st.stage_inputs.zip args)) kwargs)
    st.stage_args

/-- Coerce the callable's return value to a list, wrapping anything that is
not a tuple or a list. -/
def coerceOutputs : PyVal → List PyVal
  | PyVal.list xs => xs
  | PyVal.tuple xs => xs
  | v => [v]

/-- `Stage._check_stage_hash`: the cache's `.stage` file exists and its bytes
equal the current function byte code. -/
def checkStageHash (stored : Option String) (current : String) : Bool :=
  match stored with
  | some bytes => bytes == current
  | Option.none => false

/-- `Stage._check_io_hash`: canonicalise the current dict, and compare the
digests-only projection of the stored JSON with the digests-only projection of
the canonicalised current dict; a missing file or a `JSONDecodeError` yields
`false`. -/
def checkIoHash (fs : FS) (stored : Option CacheData) (current : Dict) : Bool :=
  let currentHashDict := hashDict fs current
  match stored with
  | some (CacheData.json d) =>
    pyEq (PyVal.dict (unhashDict XType.hash d))
      (PyVal.dict (unhashDict XType.hash currentHashDict))
  | some CacheData.corrupt => false
  | Option.none => false

/-- `Stage._load_results_from_hash`: open the `.outputs` file (an undefined
`output_hash_location` attribute raises `AttributeError`, a missing file
`FileNotFoundError`, corrupt JSON `JSONDecodeError`) and project the loaded
JSON back to bare paths. -/
def loadResultsFromHash (cache : CacheFS) (st : Stage) : Except Err Dict :=
  match st.hash_output with
  | Option.none => Except.error Err.attributeError
  | some _ =>
    match cache.outputsFile with
    | Option.none => Except.error Err.fileNotFoundError
    | some CacheData.corrupt => Except.error Err.jsonDecodeError
    | some (CacheData.json d) => Except.ok (unhashDict XType.file d)

/-- `Stage._check_hashes`: compare the stage hash and the input hash, and when
the `.outputs` file exists load it into `stage_results` (an unparseable
`.outputs` file raises here) and check that its digests-only projection is
self-consistent and that every declared output label is a key of it.  Returns
the conjunction together with the possibly updated `stage_results`. -/
def checkHashes (fs : FS) (cache : CacheFS) (st : Stage) : Except Err (Bool × Dict) :=
  let stage_match := checkStageHash cache.stageFile st.funcBytes
  let input_match := checkIoHash fs cache.inputsFile st.stage_input_args
  match cache.outputsFile with
  | some (CacheData.json d) =>
    let results := unhashDict XType.file d
    let output_match := checkIoHash fs cache.outputsFile results
    let output_match := output_match && st.stage_outputs.all (fun k => containsKey results k)
    Except.ok (stage_match && (input_match && (true && output_match)), results)
  | some CacheData.corrupt => Except.error Err.jsonDecodeError
  | Option.none =>
    Except.ok (stage_match && (input_match && (false && false)), st.stage_results)

/-- `Stage._write_hashes`: overwrite the three cache files with the current
function bytes and the canonicalised, JSON-serialised input and output
dicts. -/
def writeHashes (fs : FS) (st : Stage) : CacheFS :=
  { stageFile := some st.funcBytes
    inputsFile := some (CacheData.json (toJsonDict (hashDict fs st.stage_input_args)))
    outputsFile := some (CacheData.json (toJsonDict (hashDict fs st.stage_results))) }

/-- Everything `Stage.run` leaves behind: the mutated stage, the cache files
on disk, and the returned `stage_results`. -/
structure RunOut where
  st : Stage
  cache : CacheFS
  ret : Dict

/-- The opening of `Stage.run`: clear `stage_has_run` and fold the call's
positional and keyword arguments and the pinned values into the persisted
`stage_input_args`. -/
def runStart (st : Stage) (args : List PyVal) (kwargs : Dict) : Stage :=
  let st := { st with stage_has_run := false }
  { st with stage_input_args := effInputs st args kwargs }

/-- The hit/miss decision of `Stage.run` before the force flags: when
`hash_output` is set, consult `_check_hashes` (which also loads the cached
outputs into `stage_results` when their file exists); otherwise the stage
should run.  Returns `stage_should_run` with the possibly updated stage. -/
def runCheck (fs : FS) (cache : CacheFS) (st : Stage) : Except Err (Bool × Stage) :=
  if st.hash_output.isSome then
    match checkHashes fs cache st with
    | Except.ok (matched, results) =>
      Except.ok (!matched, { st with stage_results := results })
    | Except.error e => Except.error e
  else
    Except.ok (true, st)

/-- The miss branch of `Stage.run`: reset the results, execute the callable on
the effective inputs, coerce its return to a list, truncate to the declared
output count, zip with the output labels, and set the run flags. -/
def stageExecute (st : Stage) : Stage :=
  let outputs := coerceOutputs (st.function_to_call st.stage_input_args)
  let outputs := outputs.take st.stage_outputs.length
  let results := (st.stage_outputs.zip outputs).foldl (fun d p => insertD d p.1 p.2) []
  { st with stage_results := results, stage_has_run := true, stage_from_hash := false }

/-- The hit branch of `Stage.run`: load the cached outputs and mark the stage
as loaded from hash. -/
def stageLoad (cache : CacheFS) (st : Stage) : Except Err Stage :=
  match loadResultsFromHash cache st with
  | Except.ok results =>
    Except.ok { st with stage_results := results, stage_from_hash := true }
  | Except.error e => Except.error e

/-- The close of `Stage.run`: rewrite the cache files when `hash_output` is
set and the stage ran (or a hash write is forced), and return the results. -/
def runFinish (fs : FS) (cache : CacheFS) (st : Stage) (force_hash_write : Bool) : RunOut :=
  { st := st
    cache :=
      if st.hash_output.isSome && (st.stage_has_run || force_hash_write) then writeHashes fs st
      else cache
    ret := st.stage_results }

/-- `Stage.run`: assemble the effective inputs, decide hit or miss (consulting
the cache when `hash_output` is set, then applying the force flags with
`force_run_stage` superseding `force_skip_stage`), then either execute the
callable or load the cached outputs; finally rewrite the cache files when the
stage ran or `force_hash_write` is set. -/
def Stage.runModel (fs : FS) (cache : CacheFS) (st : Stage) (args : List PyVal) (kwargs : Dict)
    (force_skip_stage force_run_stage force_hash_write : Bool) : Except Err RunOut :=
  match runCheck fs cache (runStart st args kwargs) with
  | Except.error e => Except.error e
  | Except.ok (stage_should_run, st) =>
    let stage_should_run :=
      if force_run_stage then true else if force_skip_stage then false else stage_should_run
    match (if stage_should_run then Except.ok (stageExecute st) else stageLoad cache st) with
    | Except.error e => Except.error e
    | Except.ok st => Except.ok (runFinish fs cache st force_hash_write)

/-- The cache-hit condition exactly as the specification states it: the stored
`.stage` bytes equal the current code fingerprint; the digests-only projection
of the stored `.inputs` JSON equals the digests-only projection of the
canonicalised current effective inputs; the `.outputs` file exists and, after
projecting it back to paths and re-canonicalising the files as they currently
are on disk, its digests-only projection is self-consistent; and every
declared output label is a key of it. -/
def specCacheHit (fs : FS) (cache : CacheFS) (funcBytes : String) (outputs : List String)
    (eff : Dict) : Bool :=
  (match cache.stageFile with
   | some bytes => bytes == funcBytes
   | Option.none => false) &&
  (match cache.inputsFile with
   | some (CacheData.json d) =>
     pyEq (PyVal.dict (unhashDict XType.hash d))
       (PyVal.dict (unhashDict XType.hash (hashDict fs eff)))
   | some CacheData.corrupt => false
   | Option.none => false) &&
  (match cache.outputsFile with
   | some (CacheData.json d) =>
     let loaded := unhashDict XType.file d
     (pyEq (PyVal.dict (unhashDict XType.hash d))
        (PyVal.dict (unhashDict XType.hash (hashDict fs loaded))) &&
      outputs.all (fun k => containsKey loaded k))
   | some CacheData.corrupt => false
   | Option.none => false)

/-- The input-map construction of `Pipeline.run` for a stage-fed edge: unite
the predecessors' `results` dictionaries in list order, update with the
downstream stage's pinned values, then bind exactly those declared input
parameter names that appear in the combined view (`KeyError` on a missing name
is ignored). -/
def pipelineEdgeInputArgs (preds : List Stage) (st : Stage) : Except Err Dict :=
  match preds.foldlM
      (fun acc s =>
        match s.resultsProp with
        | Except.ok r => Except.ok (dictUpdate acc r)
        | Except.error e => Except.error e)
      ([] : Dict) with
  | Except.error e => Except.error e
  | Except.ok combined =>
    let combined := dictUpdate combined st.stage_args
    Except.ok (st.stage_inputs.foldl
      (fun ia arg =>
        match dlookup combined arg with
        | some v => insertD ia arg v
        | Option.none => ia)
      [])

/-- The combined-view lookup exactly as the specification states it: pinned
values first, then the predecessors' results in reverse list order (so that a
later predecessor overrides an earlier one). -/
def specRoutedLookup (rs : List Dict) (pinned : Dict) (k : String) : Option PyVal :=
  oOr (dlookup pinned k) (firstSome (rs.reverse.map (fun r => dlookup r k)))

/-- Index of the last occurrence of a character (`str.rfind`), if any. -/
def rfindL (c : Char) : List Char → Option Nat
  | [] => Option.none
  | x :: xs =>
    match rfindL c xs with
    | some i => some (i + 1)
    | Option.none => if x = c then some 0 else Option.none

/-- Start index of the basename: one past the last `'/'`, or `0`. -/
def baseStart (p : List Char) : Nat :=
  match rfindL '/' p with
  | some i => i + 1
  | Option.none => 0

/-- `posixpath.splitext`: split at the last dot that lies after the last
slash, unless every character between the basename start and that dot is a
dot (leading dots of a basename never start an extension). -/
def splitextL (p : List Char) : List Char × List Char :=
  match rfindL '.' p with
  | some d =>
    if baseStart p ≤ d ∧
        ((p.drop (baseStart p)).take (d - baseStart p)).any (fun ch => ch ≠ '.') then
      (p.take d, p.drop d)
    else (p, [])
  | Option.none => (p, [])

/-- `posixpath.basename`: everything after the last `'/'`. -/
def basenameL (p : List Char) : List Char :=
  p.drop (baseStart p)

/-- `posixpath.dirname`: everything up to and including the last `'/'`, with
trailing slashes stripped unless the head consists only of slashes. -/
def dirnameL (p : List Char) : List Char :=
  let head := p.take (baseStart p)
  if head ≠ [] ∧ head.any (fun c => c ≠ '/') then
    (head.reverse.dropWhile (fun c => c = '/')).reverse
  else head

/-- `posixpath.join` on two components. -/
def joinL (a b : List Char) : List Char :=
  if b.head? = some '/' then b
  else if a = [] ∨ a.getLast? = some '/' then a ++ b
  else a ++ '/' :: b

/-- `pathman.get_prefix`: strip the basename's extensions one at a time until
none is left. -/
def getPrefixL (f : List Char) : List Char :=
  if h : (splitextL (basenameL f)).2 = [] then (splitextL (basenameL f)).1
  else getPrefixL (splitextL (basenameL f)).1
termination_by f.length
decreasing_by
  have hb : (basenameL f).length ≤ f.length := by
    simp [basenameL]
  rcases hsp : splitextL (basenameL f) with ⟨name, ext⟩
  rw [hsp] at h
  unfold splitextL at hsp
  split at hsp
  · rename_i d _
    split at hsp
    · injection hsp with h1 h2
      have hne : List.drop d (basenameL f) ≠ [] := by
        rw [h2]
        exact h
      rw [← List.length_pos, List.length_drop] at hne
      simp only [← h1, List.length_take]
      omega
    · exact absurd (congrArg Prod.snd hsp) (by simp_all)
  · exact absurd (congrArg Prod.snd hsp) (by simp_all)

/-- `pathman.get_path_and_prefix`: the directory joined with the extensionless
stem. -/
def getPathAndPrefixL (f : List Char) : List Char :=
  joinL (dirnameL f) (getPrefixL f)

/-- Python `str.split("_")`. -/
def splitUnd : List Char → List (List Char)
  | [] => [[]]
  | c :: rest =>
    match splitUnd rest with
    | [] => [[c]]
    | g :: gs => if c = '_' then [] :: g :: gs else (c :: g) :: gs

/-- `pathman.delete_suffix`: drop the last `_`-separated group of the
path-and-prefix and re-attach the extension characters. -/
def deleteSuffixL (f : List Char) : List Char :=
  let pfx := getPathAndPrefixL f
  let ext := f.drop pfx.length
  let newPfx := List.intercalate ['_'] ((splitUnd pfx).dropLast)
  newPfx ++ ext

mutual

/-- No sub-dictionary of the value carries both a `"file"` and a `"hash"`
key (the domain hypothesis of the canonicalisation round trip). -/
def noFH : PyVal → Bool
  | PyVal.dict d => !hasFileHash d && noFHD d
  | PyVal.list xs => noFHL xs
  | PyVal.tuple xs => noFHL xs
  | _ => true

/-- `noFH` for every value of a dict. -/
def noFHD : List (String × PyVal) → Bool
  | [] => true
  | (_, v) :: rest => noFH v && noFHD rest

/-- `noFH` for every element of a list. -/
def noFHL : List PyVal → Bool
  | [] => true
  | v :: rest => noFH v && noFHL rest

end

/-! ### Concrete objects used by counterexamples and witnesses -/

/-- A one-file filesystem: `"f"` holds the bytes `"data"`. -/
def fsEx : FS := [("f", "data")]

/-- An empty cache: none of the three files exists. -/
def cacheEmpty : CacheFS :=
  { stageFile := Option.none, inputsFile := Option.none, outputsFile := Option.none }

/-- A cached stage whose `.outputs` file is unparseable JSON. -/
def cacheCorruptOut : CacheFS :=
  { stageFile := some "bytecode", inputsFile := some (CacheData.json []),
    outputsFile := some CacheData.corrupt }

/-- Stage wrapping a constant callable, declared outputs `["a", "b"]`, no
cache directory (for the truncation counterexample). -/
def stageTwoOut : Stage :=
  { function_to_call := fun _ => PyVal.int 1
    funcBytes := "bytecode"
    stage_inputs := []
    stage_outputs := ["a", "b"] }

/-- Stage with declared parameters `x` and `y`, no pinned values, no cache
directory (for the effective-input persistence counterexample). -/
def stageXY : Stage :=
  { function_to_call := fun _ => PyVal.int 0
    funcBytes := "bytecode"
    stage_inputs := ["x", "y"]
    stage_outputs := ["o"] }

/-- Stage with a cache directory set (for the corrupt-cache counterexample and
the forced-skip witness). -/
def stageCached : Stage :=
  { function_to_call := fun _ => PyVal.int 0
    funcBytes := "bytecode"
    stage_inputs := []
    stage_outputs := ["o"]
    hash_output := some "cachedir" }

/-- A cache whose three files match `stageCached` exactly: stage bytes
`"bytecode"`, empty canonicalised inputs, and outputs `{"o": 0}` (for the
cache-hit witness). -/
def cacheWritten : CacheFS :=
  { stageFile := some "bytecode", inputsFile := some (CacheData.json []),
    outputsFile := some (CacheData.json [("o", PyVal.int 0)]) }

/-- A predecessor stage holding results `{"z": 3}` with alias `za → z` (for
the pipeline-routing witness). -/
def stagePred : Stage :=
  { function_to_call := fun _ => PyVal.int 0
    funcBytes := "bytecode"
    stage_inputs := []
    stage_outputs := ["z"]
    stage_results := [("z", PyVal.int 3)]
    stage_aliases := [("za", "z")] }

/-- A downstream stage declaring inputs `z` and `w`, with `w` pinned to `7`
(for the pipeline-routing witness). -/
def stageDown : Stage :=
  { function_to_call := fun _ => PyVal.int 0
    funcBytes := "bytecode"
    stage_inputs := ["z", "w"]
    stage_outputs := ["o"]
    stage_args := [("w", PyVal.int 7)] }

/-- The dict `{"k": [["f"]], "t": ("f",)}`: the existing file name `"f"`
buried inside a nested list and inside a tuple. -/
def dictNested : Dict :=
  [("k", PyVal.list [PyVal.list [PyVal.str "f"]]), ("t", PyVal.tuple [PyVal.str "f"])]

/-- The dict `{"k": "f", "m": {"n": "f"}, "l": ["f", 2]}`: the existing file
name `"f"` in a mapping value, a nested mapping and a list element. -/
def dictFiles : Dict :=
  [("k", PyVal.str "f"), ("m", PyVal.dict [("n", PyVal.str "f")]),
   ("l", PyVal.list [PyVal.str "f", PyVal.int 2])]

/-! ### Association-list lemmas -/

theorem dlookup_insertD (d : Dict) (k : String) (v : PyVal) (k' : String) :
    dlookup (insertD d k v) k' = if k = k' then some v else dlookup d k' := by
  induction d with
  | nil =>
    simp only [insertD, dlookup]
  | cons hd tl ih =>
    obtain ⟨k0, v0⟩ := hd
    by_cases h0 : k0 = k
    · subst h0
      simp only [insertD, if_pos rfl, dlookup]
      by_cases h1 : k0 = k'
      · simp [h1]
      · simp [h1]
    · simp only [insertD, if_neg h0, dlookup]
      by_cases h1 : k0 = k'
      · subst h1
        have : ¬k = k0 := fun h => h0 h.symm
        simp [this]
      · simp only [if_neg h1, ih]

theorem dlookup_append (d1 d2 : Dict) (k : String) :
    dlookup (d1 ++ d2) k = oOr (dlookup d1 k) (dlookup d2 k) := by
  induction d1 with
  | nil => simp [dlookup, oOr]
  | cons hd tl ih =>
    obtain ⟨k0, v0⟩ := hd
    by_cases h : k0 = k
    · simp [dlookup, h, oOr]
    · simp [dlookup, h, ih]

theorem dlookup_dictUpdate (d u : Dict) (k : String) :
    dlookup (dictUpdate d u) k = oOr (dlookup u.reverse k) (dlookup d k) := by
  induction u generalizing d with
  | nil => simp [dictUpdate, dlookup, oOr]
  | cons hd tl ih =>
    obtain ⟨k0, v0⟩ := hd
    have step : dictUpdate d ((k0, v0) :: tl) = dictUpdate (insertD d k0 v0) tl := rfl
    rw [step, ih, List.reverse_cons, dlookup_append, dlookup_insertD]
    by_cases h : k0 = k
    · subst h
      cases dlookup tl.reverse k0 <;> simp [dlookup, oOr]
    · cases htl : dlookup tl.reverse k <;> simp [dlookup, oOr, h]

theorem dlookup_isSome_iff (d : Dict) (k : String) :
    (dlookup d k).isSome = true ↔ k ∈ d.map Prod.fst := by
  induction d with
  | nil => simp [dlookup]
  | cons hd tl ih =>
    obtain ⟨k0, v0⟩ := hd
    by_cases h : k0 = k
    · simp [dlookup, h]
    · simp [dlookup, h, ih, Ne.symm h]

theorem dlookup_reverse_nodup (d : Dict) (k : String) (h : (d.map Prod.fst).Nodup) :
    dlookup d.reverse k = dlookup d k := by
  induction d with
  | nil => rfl
  | cons hd tl ih =>
    obtain ⟨k0, v0⟩ := hd
    simp only [List.map_cons, List.nodup_cons] at h
    rw [List.reverse_cons, dlookup_append, ih h.2]
    by_cases hk : k0 = k
    · subst hk
      have : dlookup tl k0 = Option.none := by
        cases hl : dlookup tl k0 with
        | none => rfl
        | some v =>
          exfalso
          exact h.1 ((dlookup_isSome_iff tl k0).1 (by simp [hl]))
      simp [this, oOr, dlookup]
    · cases hl : dlookup tl k <;> simp [oOr, dlookup, hk, hl]

theorem mapfst_zip {α β : Type} (l1 : List α) (l2 : List β) :
    (l1.zip l2).map Prod.fst = l1.take l2.length := by
  induction l1 generalizing l2 with
  | nil => simp
  | cons x xs ih =>
    cases l2 with
    | nil => simp
    | cons y ys => simp [List.zip_cons_cons, ih]

theorem oOr_none (a : Option PyVal) : oOr a Option.none = a := by
  cases a <;> rfl

theorem containsKey_dictUpdate_nil (u : Dict) (k : String) :
    containsKey (dictUpdate [] u) k = true ↔ k ∈ u.map Prod.fst := by
  rw [containsKey, dlookup_dictUpdate]
  rw [show dlookup ([] : Dict) k = Option.none from rfl]
  rw [oOr_none, dlookup_isSome_iff]
  simp

/-! ### Path manipulation (claim C10) -/

theorem getPrefixL_eq (f : List Char) :
    getPrefixL f = if (splitextL (basenameL f)).2 = [] then (splitextL (basenameL f)).1
      else getPrefixL (splitextL (basenameL f)).1 := by
  rw [getPrefixL.eq_def]
  rfl

theorem splitUnd_no_underscore (l : List Char) (h : '_' ∉ l) : splitUnd l = [l] := by
  induction l with
  | nil => rfl
  | cons c rest ih =>
    simp only [List.mem_cons, not_or] at h
    rw [splitUnd, ih h.2]
    show (if c = '_' then [[], rest] else [c :: rest]) = [c :: rest]
    rw [if_neg (fun hc => h.1 hc.symm)]

/-- C10 counterexample: for the filename `"a//b.txt"` (doubled separator) the
path-and-prefix `"a/b"` contains no underscore, yet `delete_suffix` returns
`"b.txt"` — the base name survives — and not the bare extension `".txt"`
required by the claim. -/
theorem delete_suffix_counterexample :
    deleteSuffixL ("a//b.txt".toList) = "b.txt".toList ∧
    getPathAndPrefixL ("a//b.txt".toList) = "a/b".toList ∧
    '_' ∉ getPathAndPrefixL ("a//b.txt".toList) ∧
    "b.txt".toList ≠ ".txt".toList := by
  have hpfx : getPathAndPrefixL ("a//b.txt".toList) = "a/b".toList := by
    unfold getPathAndPrefixL
    rw [getPrefixL_eq, if_neg (by decide), getPrefixL_eq, if_pos (by decide)]
    decide
  refine ⟨?_, hpfx, ?_, by decide⟩
  · rw [show deleteSuffixL ("a//b.txt".toList) =
        List.intercalate ['_'] ((splitUnd (getPathAndPrefixL ("a//b.txt".toList))).dropLast) ++
          List.drop (getPathAndPrefixL ("a//b.txt".toList)).length ("a//b.txt".toList) from rfl]
    rw [hpfx]
    decide
  · rw [hpfx]
    decide

/-- C10 amended: for every filename whose path-and-prefix contains no
underscore *and* is a genuine string prefix of the filename (which a path with
doubled separators can violate), `delete_suffix` drops exactly the
path-and-prefix — directory plus extensionless base name — and returns the
remaining extension characters. -/
theorem delete_suffix_no_underscore (f : List Char)
    (h1 : '_' ∉ getPathAndPrefixL f)
    (h2 : f.take (getPathAndPrefixL f).length = getPathAndPrefixL f) :
    getPathAndPrefixL f ++ deleteSuffixL f = f := by
  rw [show deleteSuffixL f =
      List.intercalate ['_'] ((splitUnd (getPathAndPrefixL f)).dropLast) ++
        List.drop (getPathAndPrefixL f).length f from rfl]
  rw [splitUnd_no_underscore _ h1]
  rw [show (([getPathAndPrefixL f] : List (List Char)).dropLast) = [] from rfl]
  rw [show List.intercalate ['_'] ([] : List (List Char)) = [] from rfl]
  rw [List.nil_append]
  have h3 := List.take_append_drop (getPathAndPrefixL f).length f
  rw [h2] at h3
  exact h3

/-- C10 witness: `"/a/b/c.txt"` satisfies both hypotheses, and
`delete_suffix` leaves exactly `".txt"` after the path-and-prefix
`"/a/b/c"`. -/
theorem delete_suffix_no_underscore_witness :
    '_' ∉ getPathAndPrefixL ("/a/b/c.txt".toList) ∧
    getPathAndPrefixL ("/a/b/c.txt".toList) ++ deleteSuffixL ("/a/b/c.txt".toList) =
      "/a/b/c.txt".toList := by
  have hpfx : getPathAndPrefixL ("/a/b/c.txt".toList) = "/a/b/c".toList := by
    unfold getPathAndPrefixL
    rw [getPrefixL_eq, if_neg (by decide), getPrefixL_eq, if_pos (by decide)]
    decide
  have h1 : '_' ∉ getPathAndPrefixL ("/a/b/c.txt".toList) := by
    rw [hpfx]
    decide
  have h2 : ("/a/b/c.txt".toList).take (getPathAndPrefixL ("/a/b/c.txt".toList)).length =
      getPathAndPrefixL ("/a/b/c.txt".toList) := by
    rw [hpfx]
    decide
  exact ⟨h1, delete_suffix_no_underscore ("/a/b/c.txt".toList) h1 h2⟩

/-! ### Canonicalisation (claims C6 and C7) -/

theorem dlookup_hashDict (fs : FS) (d : Dict) (k : String) :
    dlookup (hashDict fs d) k = (dlookup d k).map (hashDictVal fs) := by
  induction d with
  | nil => rfl
  | cons hd tl ih =>
    obtain ⟨k0, v0⟩ := hd
    by_cases h : k0 = k <;> simp [hashDict, dlookup, h, ih]

theorem hasFileHash_hashDict (fs : FS) (d : List (String × PyVal)) :
    hasFileHash (hashDict fs d) = hasFileHash d := by
  simp [hasFileHash, containsKey, dlookup_hashDict]

/-- C6 counterexample: `"f"` is an existing regular file, yet canonicalising
`{"k": [["f"]], "t": ("f",)}` replaces nothing — the string inside the
list-within-a-list and inside the tuple stays bare, where the claim demands a
file-record at every nesting depth. -/
theorem canonicalise_nested_counterexample :
    hashDict fsEx dictNested = dictNested ∧ isfile fsEx "f" = true :=
  ⟨rfl, rfl⟩

/-- C6 amended: canonicalisation replaces a bare existing-file string that is
a mapping value or a direct element of a list-valued mapping entry, and
recurses into sub-mappings in both positions, but it does not walk sequences
nested within sequences and leaves tuples untouched everywhere. -/
theorem canonicalise_walk (fs : FS) (d : Dict) (k : String) :
    (∀ s, dlookup d k = some (PyVal.str s) → isfile fs s = true →
      dlookup (hashDict fs d) k = some (fileRecord fs s)) ∧
    (∀ d', dlookup d k = some (PyVal.dict d') →
      dlookup (hashDict fs d) k = some (PyVal.dict (hashDict fs d'))) ∧
    (∀ xs, dlookup d k = some (PyVal.list xs) →
      dlookup (hashDict fs d) k = some (PyVal.list (hashList fs xs))) ∧
    (∀ s, isfile fs s = true → hashListElem fs (PyVal.str s) = fileRecord fs s) ∧
    (∀ d', hashListElem fs (PyVal.dict d') = PyVal.dict (hashDict fs d')) ∧
    (∀ xs, hashListElem fs (PyVal.list xs) = PyVal.list xs) ∧
    (∀ xs, hashDictVal fs (PyVal.tuple xs) = PyVal.tuple xs) ∧
    (∀ xs, hashListElem fs (PyVal.tuple xs) = PyVal.tuple xs) := by
  refine ⟨?_, ?_, ?_, ?_, ?_, ?_, ?_, ?_⟩
  · intro s hs hf
    rw [dlookup_hashDict, hs]
    simp [hashDictVal, hf]
  · intro d' hd'
    rw [dlookup_hashDict, hd']
    simp [hashDictVal]
  · intro xs hxs
    rw [dlookup_hashDict, hxs]
    simp [hashDictVal]
  · intro s hf
    simp [hashListElem, hf]
  · intro d'
    rfl
  · intro xs
    rfl
  · intro xs
    rfl
  · intro xs
    rfl

/-- C6 amended witness: canonicalising `{"k": "f"}` on a filesystem where
`"f"` exists yields the file-record at key `"k"`. -/
theorem canonicalise_walk_witness :
    dlookup (hashDict fsEx [("k", PyVal.str "f")]) "k" = some (fileRecord fsEx "f") :=
  (canonicalise_walk fsEx [("k", PyVal.str "f")] "k").1 "f" rfl rfl

mutual

theorem roundtrip_dict (fs : FS) (d : List (String × PyVal)) (h : noFHD d = true) :
    unhashDict XType.file (hashDict fs d) = d := by
  match d with
  | [] => simp [hashDict, unhashDict]
  | (k, v) :: rest =>
    simp only [noFHD, Bool.and_eq_true] at h
    rw [hashDict, unhashDict, roundtrip_val fs v h.1, roundtrip_dict fs rest h.2]

theorem roundtrip_val (fs : FS) (v : PyVal) (h : noFH v = true) :
    unhashDictVal XType.file (hashDictVal fs v) = v := by
  match v with
  | PyVal.none => simp [hashDictVal, unhashDictVal]
  | PyVal.bool b => simp [hashDictVal, unhashDictVal]
  | PyVal.int n => simp [hashDictVal, unhashDictVal]
  | PyVal.tuple xs => simp [hashDictVal, unhashDictVal]
  | PyVal.str s =>
    by_cases hf : isfile fs s
    · simp [hashDictVal, hf, fileRecord, unhashDictVal, hasFileHash, containsKey, dlookup,
        recordField]
    · simp [hashDictVal, hf, unhashDictVal]
  | PyVal.dict d' =>
    simp only [noFH, Bool.and_eq_true, Bool.not_eq_true'] at h
    simp [hashDictVal, unhashDictVal, hasFileHash_hashDict, h.1, roundtrip_dict fs d' h.2]
  | PyVal.list xs =>
    simp only [noFH] at h
    simp [hashDictVal, unhashDictVal, roundtrip_list fs xs h]

theorem roundtrip_list (fs : FS) (l : List PyVal) (h : noFHL l = true) :
    unhashList XType.file (hashList fs l) = l := by
  match l with
  | [] => simp [hashList, unhashList]
  | v :: rest =>
    simp only [noFHL, Bool.and_eq_true] at h
    rw [hashList, unhashList, roundtrip_elem fs v h.1, roundtrip_list fs rest h.2]

theorem roundtrip_elem (fs : FS) (v : PyVal) (h : noFH v = true) :
    unhashListElem XType.file (hashListElem fs v) = v := by
  match v with
  | PyVal.none => simp [hashListElem, unhashListElem]
  | PyVal.bool b => simp [hashListElem, unhashListElem]
  | PyVal.int n => simp [hashListElem, unhashListElem]
  | PyVal.tuple xs => simp [hashListElem, unhashListElem]
  | PyVal.list xs => simp [hashListElem, unhashListElem]
  | PyVal.str s =>
    by_cases hf : isfile fs s
    · simp [hashListElem, hf, fileRecord, unhashListElem, unhashDictVal, hasFileHash,
        containsKey, dlookup, recordField]
    · simp [hashListElem, hf, unhashListElem]
  | PyVal.dict d' =>
    simp only [noFH, Bool.and_eq_true, Bool.not_eq_true'] at h
    simp [hashListElem, unhashListElem, unhashDictVal, hasFileHash_hashDict, h.1,
      roundtrip_dict fs d' h.2]

end

/-- C7: for a value with no pre-existing `{file, hash}` sub-dictionary,
projecting the canonicalised form back to paths-only recovers the value
exactly (the embedding is pure, so the argument is also left unchanged). -/
theorem canonicalise_roundtrip (fs : FS) (d : Dict) (h : noFH (PyVal.dict d) = true) :
    unhashDict XType.file (hashDict fs d) = d := by
  simp only [noFH, Bool.and_eq_true] at h
  exact roundtrip_dict fs d h.2

/-- C7 witness: the round trip on `{"k": "f", "m": {"n": "f"}, "l": ["f", 2]}`
over a filesystem where `"f"` exists. -/
theorem canonicalise_roundtrip_witness :
    noFH (PyVal.dict dictFiles) = true ∧
    unhashDict XType.file (hashDict fsEx dictFiles) = dictFiles :=
  ⟨by decide, canonicalise_roundtrip fsEx dictFiles (by decide)⟩

/-! ### Results property (claim C9) -/

/-- C9: reading the `results` property never mutates the stage: the alias
entries land only on the returned copy, the stored results gain no keys, and
repeated reads agree. -/
theorem results_read_pure (st : Stage) (r : Dict) (st' : Stage)
    (h : st.resultsRead = Except.ok (r, st')) :
    st' = st ∧
    (∀ a, containsKey st'.stage_results a = containsKey st.stage_results a) ∧
    st'.resultsRead = st.resultsRead := by
  unfold Stage.resultsRead at h
  cases hp : st.resultsProp with
  | ok r0 =>
    rw [hp] at h
    injection h with h1
    have hst : st' = st := (congrArg Prod.snd h1).symm
    subst hst
    exact ⟨rfl, fun a => rfl, rfl⟩
  | error e =>
    rw [hp] at h
    exact absurd h (by simp)

/-- C9 witness: reading the results of the concrete aliased stage returns the
aliased copy and the unchanged stage. -/
theorem results_read_pure_witness :
    ∃ pr, stagePred.resultsRead = Except.ok pr ∧ pr.2 = stagePred :=
  ⟨([("z", PyVal.int 3), ("za", PyVal.int 3)], stagePred), rfl,
   (results_read_pure stagePred [("z", PyVal.int 3), ("za", PyVal.int 3)] stagePred rfl).1⟩

/-! ### Forced skip without a cache directory (claim C8) -/

/-- C8: a stage constructed without a cache directory has no output-hash file
location, so `run` with `force_skip_stage=True` (and no forced run) raises an
`AttributeError` instead of returning results. -/
theorem run_force_skip_no_cache (fs : FS) (cache : CacheFS) (st : Stage) (args : List PyVal)
    (kwargs : Dict) (fwr : Bool) (h : st.hash_output = Option.none) :
    Stage.runModel fs cache st args kwargs true false fwr = Except.error Err.attributeError := by
  unfold Stage.runModel
  simp [h, runCheck, runStart, stageLoad, loadResultsFromHash]

/-- C8 witness: the concrete cacheless stage raises on a forced skip. -/
theorem run_force_skip_no_cache_witness :
    stageXY.hash_output = Option.none ∧
    Stage.runModel fsEx cacheEmpty stageXY [] [] true false false =
      Except.error Err.attributeError :=
  ⟨rfl, run_force_skip_no_cache fsEx cacheEmpty stageXY [] [] false rfl⟩

/-! ### Effective input assembly (claim C4) -/

/-- C4 counterexample: on a second `run` call the effective input map still
contains the binding `x ↦ 1` made by the first call's positional argument,
although the second call's positional arguments, keyword arguments and pinned
values mention no `x`. -/
theorem stage_input_args_persist_counterexample :
    (match Stage.runModel fsEx cacheEmpty stageXY [PyVal.int 1] [] false false false with
     | Except.ok o1 =>
       match Stage.runModel fsEx o1.cache o1.st [] [("y", PyVal.int 2)] false false false with
       | Except.ok o2 => some o2.st.stage_input_args
       | Except.error _ => Option.none
     | Except.error _ => Option.none) = some [("x", PyVal.int 1), ("y", PyVal.int 2)] ∧
    stageXY.stage_args = [] ∧
    "x" ∉ ([("y", PyVal.int 2)] : Dict).map Prod.fst :=
  ⟨rfl, rfl, by decide⟩

/-- C4 amended: on a stage whose persisted `stage_input_args` is empty (in
particular on a first `run` call), the effective input map is exactly the
union of positional bindings, keyword arguments and pinned values, with pinned
values taking precedence over keyword arguments and those over positional
bindings; on later calls the bindings of earlier calls persist underneath. -/
theorem eff_inputs_union (st : Stage) (args : List PyVal) (kwargs : Dict)
    (h0 : st.stage_input_args = [])
    (h1 : st.stage_inputs.Nodup)
    (h2 : (kwargs.map Prod.fst).Nodup)
    (h3 : (st.stage_args.map Prod.fst).Nodup)
    (k : String) :
    dlookup (effInputs st args kwargs) k =
      oOr (dlookup st.stage_args k)
        (oOr (dlookup kwargs k) (dlookup (st.stage_inputs.zip args) k)) := by
  have hz : ((st.stage_inputs.zip args).map Prod.fst).Nodup := by
    rw [mapfst_zip]
    exact h1.sublist (List.take_sublist _ _)
  unfold effInputs
  rw [dlookup_dictUpdate, dlookup_dictUpdate, dlookup_dictUpdate, h0]
  rw [dlookup_reverse_nodup _ _ h3, dlookup_reverse_nodup _ _ h2, dlookup_reverse_nodup _ _ hz]
  rw [show dlookup ([] : Dict) k = Option.none from rfl, oOr_none]

/-- C4 amended witness: on a fresh stage, pinned and keyword and positional
values combine with the claimed precedence. -/
theorem eff_inputs_union_witness :
    dlookup (effInputs stageXY [PyVal.int 1] [("y", PyVal.int 2)]) "x" =
      oOr (dlookup stageXY.stage_args "x")
        (oOr (dlookup [("y", PyVal.int 2)] "x")
          (dlookup (stageXY.stage_inputs.zip [PyVal.int 1]) "x")) :=
  eff_inputs_union stageXY [PyVal.int 1] [("y", PyVal.int 2)] rfl (by decide) (by decide)
    (by decide) "x"

/-! ### Pipeline routing (claim C5) -/

theorem oOr_assoc (a b c : Option PyVal) : oOr (oOr a b) c = oOr a (oOr b c) := by
  cases a <;> rfl

theorem firstSome_append (l1 l2 : List (Option PyVal)) :
    firstSome (l1 ++ l2) = oOr (firstSome l1) (firstSome l2) := by
  induction l1 with
  | nil => rfl
  | cons a rest ih =>
    rw [List.cons_append, firstSome, firstSome, ih, oOr_assoc]

theorem foldlM_resultsProp (preds : List Stage) (rs : List Dict) (acc : Dict)
    (h : preds.mapM Stage.resultsProp = Except.ok rs) :
    (preds.foldlM
      (fun acc s =>
        match s.resultsProp with
        | Except.ok r => Except.ok (dictUpdate acc r)
        | Except.error e => Except.error e)
      acc) = Except.ok (rs.foldl dictUpdate acc) := by
  induction preds generalizing rs acc with
  | nil =>
    simp only [List.mapM_nil, pure, Except.pure] at h
    injection h with h1
    subst h1
    rfl
  | cons s rest ih =>
    rw [List.mapM_cons] at h
    cases hp : s.resultsProp with
    | ok r =>
      rw [hp] at h
      cases hm : rest.mapM Stage.resultsProp with
      | ok rs' =>
        rw [hm] at h
        have h2 : Except.ok (r :: rs') = Except.ok rs := h
        injection h2 with h1
        subst h1
        rw [List.foldlM_cons, hp]
        exact ih rs' (dictUpdate acc r) hm
      | error e2 =>
        rw [hm] at h
        exact Except.noConfusion h
    | error e =>
      rw [hp] at h
      exact Except.noConfusion h

theorem dlookup_foldl_dictUpdate (rs : List Dict) (d : Dict) (k : String)
    (hnd : ∀ r ∈ rs, (r.map Prod.fst).Nodup) :
    dlookup (rs.foldl dictUpdate d) k =
      oOr (firstSome (rs.reverse.map (fun r => dlookup r k))) (dlookup d k) := by
  induction rs generalizing d with
  | nil => rfl
  | cons r rest ih =>
    rw [List.foldl_cons, ih (dictUpdate d r) (fun x hx => hnd x (List.mem_cons_of_mem r hx))]
    rw [dlookup_dictUpdate, dlookup_reverse_nodup _ _ (hnd r (List.mem_cons_self r rest))]
    rw [List.reverse_cons, List.map_append, firstSome_append]
    rw [show firstSome (List.map (fun r => dlookup r k) [r]) = oOr (dlookup r k) Option.none
        from rfl]
    rw [oOr_none, oOr_assoc]

theorem dlookup_route (inputs : List String) (combined : Dict) (acc : Dict) (k : String) :
    dlookup
      (inputs.foldl
        (fun ia arg =>
          match dlookup combined arg with
          | some v => insertD ia arg v
          | Option.none => ia)
        acc) k =
      if k ∈ inputs ∧ (dlookup combined k).isSome then dlookup combined k
      else dlookup acc k := by
  induction inputs generalizing acc with
  | nil => simp
  | cons a rest ih =>
    rw [List.foldl_cons, ih]
    by_cases hk : k ∈ rest ∧ (dlookup combined k).isSome
    · rw [if_pos hk, if_pos ⟨List.mem_cons_of_mem a hk.1, hk.2⟩]
    · by_cases hak : a = k
      · subst hak
        cases hc : dlookup combined a with
        | none => simp
        | some v =>
          have hnr : a ∉ rest := fun hmem => hk ⟨hmem, by rw [hc]; rfl⟩
          rw [if_neg (fun hcon => hnr hcon.1), if_pos ⟨List.mem_cons_self a rest, rfl⟩]
          rw [dlookup_insertD, if_pos rfl]
      · have hmem : (k ∈ a :: rest ∧ (dlookup combined k).isSome) ↔
            (k ∈ rest ∧ (dlookup combined k).isSome) := by
          constructor
          · intro hcon
            rcases List.mem_cons.1 hcon.1 with h1 | h1
            · exact absurd h1.symm hak
            · exact ⟨h1, hcon.2⟩
          · intro hcon
            exact ⟨List.mem_cons_of_mem a hcon.1, hcon.2⟩
        rw [if_neg (fun hcon => hk (hmem.1 hcon)), if_neg hk]
        cases hc : dlookup combined a with
        | none => rfl
        | some v => rw [dlookup_insertD, if_neg hak]

/-- C5: for a stage-fed edge, the input map handed to the downstream stage
binds exactly those declared input parameter names present in the combined
view — predecessors' results united in list order with later ones overriding,
then pinned values on top — and omits every other name. -/
theorem pipeline_edge_routing (preds : List Stage) (st : Stage) (rs : List Dict) (ia : Dict)
    (hrs : preds.mapM Stage.resultsProp = Except.ok rs)
    (hnd : ∀ r ∈ rs, (r.map Prod.fst).Nodup)
    (hpin : (st.stage_args.map Prod.fst).Nodup)
    (hia : pipelineEdgeInputArgs preds st = Except.ok ia) :
    ∀ k, dlookup ia k =
      if k ∈ st.stage_inputs then specRoutedLookup rs st.stage_args k else Option.none := by
  intro k
  unfold pipelineEdgeInputArgs at hia
  rw [foldlM_resultsProp preds rs [] hrs] at hia
  injection hia with h1
  subst h1
  rw [dlookup_route]
  have hcomb : dlookup (dictUpdate (rs.foldl dictUpdate []) st.stage_args) k =
      specRoutedLookup rs st.stage_args k := by
    rw [dlookup_dictUpdate, dlookup_reverse_nodup _ _ hpin, dlookup_foldl_dictUpdate rs [] k hnd]
    rw [show dlookup ([] : Dict) k = Option.none from rfl, oOr_none, specRoutedLookup]
  rw [hcomb]
  by_cases hmem : k ∈ st.stage_inputs
  · cases hs : specRoutedLookup rs st.stage_args k with
    | none => simp [hmem, dlookup]
    | some v => rw [if_pos ⟨hmem, rfl⟩, if_pos hmem]
  · rw [if_neg (fun hcon => hmem hcon.1), if_neg hmem]
    rfl

/-- C5 witness: with predecessor results `{"z": 3, "za": 3}` and pin `w ↦ 7`,
the downstream stage with declared inputs `z, w` receives exactly the routed
view at each name. -/
theorem pipeline_edge_routing_witness :
    dlookup [("z", PyVal.int 3), ("w", PyVal.int 7)] "z" =
      if "z" ∈ stageDown.stage_inputs then
        specRoutedLookup [[("z", PyVal.int 3), ("za", PyVal.int 3)]] stageDown.stage_args "z"
      else Option.none :=
  pipeline_edge_routing [stagePred] stageDown [[("z", PyVal.int 3), ("za", PyVal.int 3)]]
    [("z", PyVal.int 3), ("w", PyVal.int 7)] rfl (by decide) (by decide) rfl "z"

/-! ### Result keys on execution (claim C3) -/

theorem take_min_length {α : Type} (l : List α) (m : Nat) :
    l.take (min l.length m) = l.take m := by
  rcases Nat.le_total l.length m with h | h
  · rw [Nat.min_eq_left h, List.take_length, List.take_of_length_le h]
  · rw [Nat.min_eq_right h]

theorem containsKey_zip_insert (outs : List String) (vals : List PyVal) (k : String) :
    containsKey ((outs.zip vals).foldl (fun d p => insertD d p.1 p.2) []) k = true ↔
      k ∈ outs.take vals.length := by
  rw [show ((outs.zip vals).foldl (fun d p => insertD d p.1 p.2) ([] : Dict)) =
      dictUpdate [] (outs.zip vals) from rfl]
  rw [containsKey_dictUpdate_nil, mapfst_zip]

/-- C3 counterexample: a stage with declared outputs `["a", "b"]` whose
callable returns the single value `1` ends the run with results holding only
the key `"a"` — the return is never padded, so the key set is a strict subset
of the declared outputs. -/
theorem stage_run_truncation_counterexample :
    (match Stage.runModel fsEx cacheEmpty stageTwoOut [] [] false false false with
     | Except.ok o => some o.ret
     | Except.error _ => Option.none) = some [("a", PyVal.int 1)] ∧
    stageTwoOut.stage_outputs = ["a", "b"] ∧
    containsKey [("a", PyVal.int 1)] "b" = false :=
  ⟨rfl, rfl, rfl⟩

/-- C3 amended: on every run that executes the callable, the return value is
coerced to a sequence and truncated (never padded) to the declared output
length, so the key set of the results equals the declared output labels
truncated to the length of the coerced return value. -/
theorem runCheck_preserves (fs : FS) (cache : CacheFS) (s : Stage) (b : Bool) (s' : Stage)
    (h : runCheck fs cache s = Except.ok (b, s')) :
    s'.function_to_call = s.function_to_call ∧ s'.funcBytes = s.funcBytes ∧
    s'.stage_inputs = s.stage_inputs ∧ s'.stage_outputs = s.stage_outputs ∧
    s'.stage_args = s.stage_args ∧ s'.stage_input_args = s.stage_input_args ∧
    s'.stage_aliases = s.stage_aliases ∧ s'.hash_output = s.hash_output ∧
    s'.stage_has_run = s.stage_has_run := by
  unfold runCheck at h
  split at h
  · split at h
    · injection h with h1
      have h2 := congrArg Prod.snd h1
      simp only at h2
      subst h2
      exact ⟨rfl, rfl, rfl, rfl, rfl, rfl, rfl, rfl, rfl⟩
    · exact Except.noConfusion h
  · injection h with h1
    have h2 := congrArg Prod.snd h1
    simp only at h2
    subst h2
    exact ⟨rfl, rfl, rfl, rfl, rfl, rfl, rfl, rfl, rfl⟩

theorem stageLoad_has_run (cache : CacheFS) (s s' : Stage)
    (h : stageLoad cache s = Except.ok s') : s'.stage_has_run = s.stage_has_run := by
  unfold stageLoad at h
  split at h
  · injection h with h1
    subst h1
    rfl
  · exact Except.noConfusion h

/-- C3 amended: on every run that executes the callable, the return value is
coerced to a sequence and truncated (never padded) to the declared output
length, so the key set of the results equals the declared output labels
truncated to the length of the coerced return value. -/
theorem stage_run_result_keys (fs : FS) (cache : CacheFS) (st : Stage) (args : List PyVal)
    (kwargs : Dict) (fsk frn fwr : Bool) (o : RunOut)
    (h : Stage.runModel fs cache st args kwargs fsk frn fwr = Except.ok o)
    (hr : o.st.stage_has_run = true) :
    ∀ k, (containsKey o.ret k = true ↔
      k ∈ st.stage_outputs.take
        (coerceOutputs (st.function_to_call (effInputs st args kwargs))).length) := by
  intro k
  unfold Stage.runModel at h
  rcases hcr : runCheck fs cache (runStart st args kwargs) with e | ⟨sr, st2⟩
  · rw [hcr] at h
    exact Except.noConfusion h
  · rw [hcr] at h
    obtain ⟨hpf, -, -, hpout, -, hpia, -, -, hphr⟩ := runCheck_preserves _ _ _ _ _ hcr
    have hm : (match (if (if frn = true then true else if fsk = true then false else sr) = true
          then Except.ok (stageExecute st2) else stageLoad cache st2) with
        | Except.error e => Except.error e
        | Except.ok s => Except.ok (runFinish fs cache s fwr)) = Except.ok o := h
    clear h
    cases hfl : (if frn = true then true else if fsk = true then false else sr) with
    | true =>
      rw [hfl] at hm
      have h2 : Except.ok (runFinish fs cache (stageExecute st2) fwr) = Except.ok o := hm
      injection h2 with h1
      subst h1
      show containsKey (stageExecute st2).stage_results k = true ↔ _
      have hres : (stageExecute st2).stage_results =
          (st2.stage_outputs.zip
            ((coerceOutputs (st2.function_to_call st2.stage_input_args)).take
              st2.stage_outputs.length)).foldl (fun d p => insertD d p.1 p.2) [] := rfl
      rw [hres, hpout, hpf, hpia]
      rw [show (runStart st args kwargs).stage_outputs = st.stage_outputs from rfl,
        show (runStart st args kwargs).function_to_call = st.function_to_call from rfl,
        show (runStart st args kwargs).stage_input_args = effInputs st args kwargs from rfl]
      rw [containsKey_zip_insert, List.length_take, take_min_length]
    | false =>
      rw [hfl] at hm
      rcases hld : stageLoad cache st2 with e | st3
      · rw [hld] at hm
        exact Except.noConfusion hm
      · rw [hld] at hm
        have h2 : Except.ok (runFinish fs cache st3 fwr) = Except.ok o := hm
        injection h2 with h1
        subst h1
        have h3 := stageLoad_has_run cache st2 st3 hld
        have hr2 : st3.stage_has_run = true := hr
        rw [h3, hphr] at hr2
        rw [show (runStart st args kwargs).stage_has_run = false from rfl] at hr2
        exact absurd hr2 (by simp)

/-- C3 amended witness: the concrete truncated stage satisfies the key-set
characterisation at key `"a"`. -/
theorem stage_run_result_keys_witness :
    containsKey [("a", PyVal.int 1)] "a" = true ↔
      "a" ∈ stageTwoOut.stage_outputs.take
        (coerceOutputs (stageTwoOut.function_to_call
          (effInputs stageTwoOut [] []))).length :=
  stage_run_result_keys fsEx cacheEmpty stageTwoOut [] [] false false false _ rfl rfl "a"

/-! ### Corrupt cache files (claim C2) -/

/-- C2 counterexample: with an unparseable `.outputs` cache file, `run`
raises the JSON decode error to the caller — `_load_results_from_hash` inside
`_check_hashes` is not guarded — instead of treating the entry as a miss. -/
theorem corrupt_outputs_counterexample :
    Stage.runModel fsEx cacheCorruptOut stageCached [] [] false false false =
      Except.error Err.jsonDecodeError := rfl

theorem checkHashes_input_corrupt (fs : FS) (cache : CacheFS) (s : Stage)
    (hci : cache.inputsFile = some CacheData.corrupt)
    (hco : cache.outputsFile ≠ some CacheData.corrupt) :
    ∃ r, checkHashes fs cache s = Except.ok (false, r) := by
  rcases houtf : cache.outputsFile with _ | cd
  · exact ⟨s.stage_results, by simp [checkHashes, checkIoHash, hci, houtf]⟩
  · cases cd with
    | json d =>
      exact ⟨unhashDict XType.file d, by simp [checkHashes, checkIoHash, hci, houtf]⟩
    | corrupt => exact absurd houtf hco

theorem runFinish_writes (fs : FS) (cache : CacheFS) (s : Stage) (fwr : Bool)
    (hd : s.hash_output.isSome = true) (hr : s.stage_has_run = true) :
    runFinish fs cache s fwr =
      { st := s, cache := writeHashes fs s, ret := s.stage_results } := by
  unfold runFinish
  rw [hd, hr]
  rfl

/-- C2 amended: a corrupt `.inputs` file is treated as a miss — the stage
re-executes and both JSON cache files are rewritten, with no error
propagating — provided the `.outputs` file is not itself corrupt; a corrupt
`.outputs` file instead makes `run` raise the JSON decode error to the
caller. -/
theorem stage_run_corrupt_cache (fs : FS) (cache : CacheFS) (st : Stage) (args : List PyVal)
    (kwargs : Dict) (hdir : st.hash_output.isSome = true) :
    (cache.inputsFile = some CacheData.corrupt → cache.outputsFile ≠ some CacheData.corrupt →
      ∃ o, Stage.runModel fs cache st args kwargs false false false = Except.ok o ∧
        o.st.stage_has_run = true ∧
        o.cache.inputsFile =
          some (CacheData.json (toJsonDict (hashDict fs (effInputs st args kwargs)))) ∧
        o.cache.outputsFile =
          some (CacheData.json (toJsonDict (hashDict fs o.st.stage_results)))) ∧
    (cache.outputsFile = some CacheData.corrupt →
      Stage.runModel fs cache st args kwargs false false false =
        Except.error Err.jsonDecodeError) := by
  constructor
  · intro hci hco
    rcases checkHashes_input_corrupt fs cache (runStart st args kwargs) hci hco with ⟨r, hch⟩
    have hrc : runCheck fs cache (runStart st args kwargs) =
        Except.ok (true, { runStart st args kwargs with stage_results := r }) := by
      unfold runCheck
      rw [if_pos (show (runStart st args kwargs).hash_output.isSome = true from hdir), hch]
      rfl
    refine ⟨runFinish fs cache
        (stageExecute { runStart st args kwargs with stage_results := r }) false, ?_, rfl, ?_, ?_⟩
    · unfold Stage.runModel
      rw [hrc]
      rfl
    · rw [runFinish_writes fs cache
        (stageExecute { runStart st args kwargs with stage_results := r }) false hdir rfl]
      rfl
    · rw [runFinish_writes fs cache
        (stageExecute { runStart st args kwargs with stage_results := r }) false hdir rfl]
      rfl
  · intro hco
    unfold Stage.runModel
    have hrc : runCheck fs cache (runStart st args kwargs) =
        Except.error Err.jsonDecodeError := by
      unfold runCheck
      rw [if_pos (show (runStart st args kwargs).hash_output.isSome = true from hdir)]
      have hch : checkHashes fs cache (runStart st args kwargs) =
          Except.error Err.jsonDecodeError := by
        unfold checkHashes
        rw [hco]
      rw [hch]
    rw [hrc]

/-- C2 witness: the concrete cached stage with a corrupt `.outputs` file
raises the decode error. -/
theorem stage_run_corrupt_cache_witness :
    Stage.runModel fsEx cacheCorruptOut stageCached [] [] false false false =
      Except.error Err.jsonDecodeError :=
  (stage_run_corrupt_cache fsEx cacheCorruptOut stageCached [] [] rfl).2 rfl

/-! ### The cache-hit condition (claim C1) -/

theorem checkHashes_spec (fs : FS) (cache : CacheFS) (s : Stage)
    (hout : cache.outputsFile ≠ some CacheData.corrupt) :
    ∃ r, checkHashes fs cache s =
      Except.ok (specCacheHit fs cache s.funcBytes s.stage_outputs s.stage_input_args, r) := by
  rcases houtf : cache.outputsFile with _ | cd
  · refine ⟨s.stage_results, ?_⟩
    simp [checkHashes, houtf, specCacheHit, checkStageHash, checkIoHash]
  · cases cd with
    | corrupt => exact absurd houtf hout
    | json d =>
      refine ⟨unhashDict XType.file d, ?_⟩
      simp [checkHashes, houtf, specCacheHit, checkStageHash, checkIoHash, Bool.and_assoc]

/-- C1: for a stage with a cache directory, a run without force flags skips
the callable (a cache hit) exactly when the stored stage bytes equal the
current code fingerprint, the digests-only projection of the stored `.inputs`
equals that of the canonicalised current effective inputs, the `.outputs`
file exists, its digests-only projection is self-consistent after re-digesting
the referenced files as they are on disk, and every declared output label is a
key of it (stated for runs whose `.outputs` file is parseable; an unparseable
one raises instead, see C2). -/
theorem stage_cache_hit_iff (fs : FS) (cache : CacheFS) (st : Stage) (args : List PyVal)
    (kwargs : Dict) (hdir : st.hash_output.isSome = true)
    (hout : cache.outputsFile ≠ some CacheData.corrupt) :
    ∃ o, Stage.runModel fs cache st args kwargs false false false = Except.ok o ∧
      (o.st.stage_has_run = false ↔
        specCacheHit fs cache st.funcBytes st.stage_outputs (effInputs st args kwargs) = true) := by
  rcases checkHashes_spec fs cache (runStart st args kwargs) hout with ⟨r, hch⟩
  have hch' : checkHashes fs cache (runStart st args kwargs) =
      Except.ok (specCacheHit fs cache st.funcBytes st.stage_outputs (effInputs st args kwargs),
        r) := hch
  have hrc : runCheck fs cache (runStart st args kwargs) =
      Except.ok
        (!(specCacheHit fs cache st.funcBytes st.stage_outputs (effInputs st args kwargs)),
          { runStart st args kwargs with stage_results := r }) := by
    unfold runCheck
    rw [if_pos (show (runStart st args kwargs).hash_output.isSome = true from hdir), hch']
  cases hs : specCacheHit fs cache st.funcBytes st.stage_outputs (effInputs st args kwargs) with
  | false =>
    refine ⟨runFinish fs cache
        (stageExecute { runStart st args kwargs with stage_results := r }) false, ?_, ?_⟩
    · unfold Stage.runModel
      rw [hrc, hs]
      rfl
    · constructor
      · intro hA
        exact absurd (show (true : Bool) = false from hA) (by simp)
      · intro hB
        exact absurd hB (by simp)
  | true =>
    rcases Option.isSome_iff_exists.mp hdir with ⟨dir, hdirv⟩
    rcases houtf : cache.outputsFile with _ | cd
    · exfalso
      rw [specCacheHit, houtf] at hs
      simp at hs
    · cases cd with
      | corrupt => exact absurd houtf hout
      | json d =>
        have hload : stageLoad cache { runStart st args kwargs with stage_results := r } =
            Except.ok { runStart st args kwargs with
              stage_results := unhashDict XType.file d, stage_from_hash := true } := by
          simp only [stageLoad, loadResultsFromHash,
            show (runStart st args kwargs).hash_output = st.hash_output from rfl, hdirv, houtf]
        refine ⟨runFinish fs cache
            { runStart st args kwargs with
              stage_results := unhashDict XType.file d, stage_from_hash := true } false,
          ?_, ?_⟩
        · unfold Stage.runModel
          rw [hrc, hs]
          show (match stageLoad cache { runStart st args kwargs with stage_results := r } with
            | Except.error e => Except.error e
            | Except.ok s => Except.ok (runFinish fs cache s false)) = _
          rw [hload]
        · exact ⟨fun _ => rfl, fun _ => rfl⟩

/-- C1 witness: the concrete cached stage against an exactly matching cache
hits, with all five conditions evaluating true. -/
theorem stage_cache_hit_iff_witness :
    ∃ o, Stage.runModel fsEx cacheWritten stageCached [] [] false false false = Except.ok o ∧
      (o.st.stage_has_run = false ↔
        specCacheHit fsEx cacheWritten stageCached.funcBytes stageCached.stage_outputs
          (effInputs stageCached [] []) = true) :=
  stage_cache_hit_iff fsEx cacheWritten stageCached [] [] rfl
    (fun h => CacheData.noConfusion (Option.some.inj h))

end Memori









